import Mathlib

/-!
# osgEarth `GEOSUtils`: host feature geometry <-> GEOS geometry graph

A shallow embedding of `src/osgEarthFeatures/GEOS.cpp`:

* `vec3dArray2CoordSeq`  (lines 45-62)
* `GEOSUtils::importGeometry`  (lines 64-153)
* `GEOSUtils::exportGeometry`  (lines 155-248)

Conventions of the embedding.

* `std::vector` is `List`; `push_back` is `++ [x]`; a null pointer is `none`.
* `double` coordinates are only copied and compared by this file, never computed
  with, so a `double` is modelled as an exact number or NaN (`Double`); `==` on
  doubles is `Double.eq`, which is false whenever a side is NaN.  Signed zeros
  and infinities are taken as numbers.
* `int` loop counters are natural numbers: container sizes are taken to stay
  below `2^31`.
* The GEOS library and the OpenSceneGraph containers are not part of this
  repository.  Their objects are modelled as plain data, the library's own
  validation of degenerate geometries (and the exceptions it raises) is not
  modelled: the factory refuses a Point whose sequence does not hold exactly one
  coordinate, and a ring that is neither empty nor a closed sequence of at
  least 4 coordinates.  Where a statement depends on what the library accepts, it
  carries the acceptance as a hypothesis (`ringAccepted`).
* `FeatureGeometry::isCCW` lives in another file of the repository; every
  definition that calls it takes it as the parameter `isCCW`.
-/

namespace GEOSUtils

/-! ## `double` -/

/-- A `double`: an exact number, or NaN. -/
inductive Double where
  | num (v : Int)
  | nan
  deriving DecidableEq, Repr

/-- Numerals are numbers. -/
instance (n : Nat) : OfNat Double n :=
  ⟨Double.num n⟩

/-- The `==` of doubles: numbers compare by value, and NaN compares equal to
nothing, itself included. -/
def Double.eq : Double → Double → Bool
  | .num a, .num b => decide (a = b)
  | _, _ => false

/-- The number a double holds, `0` for NaN; read by the sample winding test
only. -/
def Double.value : Double → Int
  | .num v => v
  | .nan => 0

/-! ## Host side: `osg::Vec3d`, `osg::Vec3dArray`, `FeatureGeometry` -/

/-- A host coordinate `osg::Vec3d`. -/
structure Vec3d where
  x : Double
  y : Double
  z : Double
  deriving DecidableEq, Repr

/-- A host geometry part `osg::Vec3dArray`: an ordered sequence of coordinates. -/
abbrev Vec3dArray := List Vec3d

/-- The host feature geometry: an ordered sequence of parts. -/
abbrev FeatureGeometry := List Vec3dArray

/-- The sized constructor `new osg::Vec3dArray( n )`: an array of `n`
default-constructed coordinates, and `osg::Vec3d()` is `(0,0,0)`. -/
def Vec3dArray.sized (n : Nat) : Vec3dArray :=
  List.replicate n ⟨0, 0, 0⟩

/-- Modelled from the spec: the geometry-kind tag `FeatureProfile::GeometryType`
carried by the profile (its declaration is not in this file).  The three kinds
the importer dispatches on, and `GEOM_UNKNOWN` for a tag that is none of them. -/
inductive GeometryType where
  | GEOM_UNKNOWN
  | GEOM_POINT
  | GEOM_LINE
  | GEOM_POLYGON
  deriving DecidableEq, Repr

/-! ## External side: the GEOS geometry object graph -/

/-- A `geos::geom::Coordinate`. -/
structure Coordinate where
  x : Double
  y : Double
  z : Double
  deriving DecidableEq, Repr

/-- The library's `Coordinate::equals2D`: coordinates compare on X and Y only,
with the `==` of doubles. -/
def Coordinate.equals2D (a b : Coordinate) : Bool :=
  a.x.eq b.x && a.y.eq b.y

/-- The library's `operator!=` on coordinates, which is `!equals2D`; it is the
comparison of line 55. -/
def Coordinate.ne (a b : Coordinate) : Bool :=
  !(a.equals2D b)

/-- A `geos::geom::CoordinateSequence`. -/
abbrev CoordinateSequence := List Coordinate

/-- Modelled from the spec: the external Point, a geometry wrapping the
coordinate sequence it was created from. -/
structure Point where
  coordinates : CoordinateSequence
  deriving DecidableEq, Repr

/-- Modelled from the spec: the external LineString. -/
structure LineString where
  points : CoordinateSequence
  deriving DecidableEq, Repr

/-- Modelled from the spec: the external LinearRing (a ring of a polygon). -/
structure LinearRing where
  points : CoordinateSequence
  deriving DecidableEq, Repr

/-- Modelled from the spec: the external Polygon, a shell and a hole list. -/
structure Polygon where
  shell : LinearRing
  holes : List LinearRing
  deriving DecidableEq, Repr

/-- Modelled from the spec: the external MultiPoint aggregate. -/
structure MultiPoint where
  geometries : List Point
  deriving DecidableEq, Repr

/-- Modelled from the spec: the external MultiLineString aggregate. -/
structure MultiLineString where
  geometries : List LineString
  deriving DecidableEq, Repr

/-- Modelled from the spec: the external MultiPolygon aggregate. -/
structure MultiPolygon where
  geometries : List Polygon
  deriving DecidableEq, Repr

/-- Modelled from the spec: the runtime type of an external geometry object, as
probed by the `dynamic_cast` chain of `exportGeometry`.  A `LinearRing` is a
`LineString` for that chain; `geometryCollection` stands for an object of no
handled type. -/
inductive Geometry where
  | point (p : Point)
  | multiPoint (mp : MultiPoint)
  | lineString (ls : LineString)
  | linearRing (lr : LinearRing)
  | multiLineString (mls : MultiLineString)
  | polygon (poly : Polygon)
  | multiPolygon (mpoly : MultiPolygon)
  | geometryCollection (members : List Point)
  deriving DecidableEq, Repr

/-- `Point::isEmpty`. -/
def Point.isEmpty (p : Point) : Bool :=
  p.coordinates.isEmpty

/-- `Point::getNumPoints`: the number of vertices of a point. -/
def Point.getNumPoints (p : Point) : Nat :=
  if p.isEmpty then 0 else 1

/-- `Point::getX`: the X of the point's first coordinate.  The library raises
on an empty point; that case reads as `0` here. -/
def Point.getX (p : Point) : Double :=
  match p.coordinates with
  | c :: _ => c.x
  | [] => 0

/-- `Point::getY`: the Y of the point's first coordinate. -/
def Point.getY (p : Point) : Double :=
  match p.coordinates with
  | c :: _ => c.y
  | [] => 0

/-- `MultiPoint::getNumPoints`: the number of vertices of the collection, the sum
over its members. -/
def MultiPoint.getNumPoints (mp : MultiPoint) : Nat :=
  (mp.geometries.map Point.getNumPoints).sum

/-- `MultiPoint::getGeometryN`. -/
def MultiPoint.getGeometryN (mp : MultiPoint) (i : Nat) : Option Point :=
  mp.geometries[i]?

/-- `LinearRing::getCoordinates`. -/
def LinearRing.getCoordinates (r : LinearRing) : CoordinateSequence :=
  r.points

/-- `Polygon::getExteriorRing`: the shell, which the library never leaves null,
so the guards `if ( outerRing )` of lines 188 and 221 are always passed. -/
def Polygon.getExteriorRing (poly : Polygon) : Option LinearRing :=
  some poly.shell

/-- `Polygon::getNumInteriorRing`. -/
def Polygon.getNumInteriorRing (poly : Polygon) : Nat :=
  poly.holes.length

/-- `Polygon::getInteriorRingN`. -/
def Polygon.getInteriorRingN (poly : Polygon) (k : Nat) : Option LinearRing :=
  poly.holes[k]?

/-- `MultiPolygon::getNumGeometries`. -/
def MultiPolygon.getNumGeometries (mpoly : MultiPolygon) : Nat :=
  mpoly.geometries.length

/-- `MultiPolygon::getGeometryN`. -/
def MultiPolygon.getGeometryN (mpoly : MultiPolygon) (i : Nat) : Option Polygon :=
  mpoly.geometries[i]?

/-- `GeometryFactory::createPoint( seq )`. -/
def createPoint (seq : CoordinateSequence) : Point :=
  ⟨seq⟩

/-- `GeometryFactory::createLineString( seq )`. -/
def createLineString (seq : CoordinateSequence) : LineString :=
  ⟨seq⟩

/-- `GeometryFactory::createLinearRing( seq )`. -/
def createLinearRing (seq : CoordinateSequence) : LinearRing :=
  ⟨seq⟩

/-- `GeometryFactory::createPolygon( shell, holes )`; a null `holes` is an empty
hole list. -/
def createPolygon (shell : LinearRing) (holes : Option (List LinearRing)) : Polygon :=
  ⟨shell, holes.getD []⟩

/-! ## `vec3dArray2CoordSeq` (lines 45-62) -/

/-- The copy of line 53, `geom::Coordinate( i->x(), i->y(), i->z() )`. -/
def toCoordinate (i : Vec3d) : Coordinate :=
  ⟨i.x, i.y, i.z⟩

/-- The coordinate-sequence builder.  Copies every coordinate (X, Y and Z), then,
when `close` is set, more than 2 coordinates were copied and the first differs
from the last under the library's `!=`, appends a copy of the first. -/
def vec3dArray2CoordSeq (input : Vec3dArray) (close : Bool) : CoordinateSequence :=
  let coords : List Coordinate := input.map toCoordinate
  if close && decide (coords.length > 2) then
    match coords[0]?, coords[coords.length - 1]? with
    | some first, some last =>
        if first.ne last then coords ++ [first] else coords
    | _, _ => coords
  else
    coords

/-! ## `GEOSUtils::importGeometry` (lines 64-153) -/

/-- The loop of the `GEOM_POINT` case (lines 76-85): every part of at least 2
coordinates becomes one Point built from the part's open coordinate sequence. -/
def importPoints (input : FeatureGeometry) : List Point :=
  input.foldl
    (fun points part =>
      if part.length ≥ 2 then
        points ++ [createPoint (vec3dArray2CoordSeq part false)]
      else
        points)
    []

/-- The loop of the `GEOM_LINE` case (lines 93-101). -/
def importLines (input : FeatureGeometry) : List LineString :=
  input.foldl
    (fun lines part =>
      if part.length ≥ 2 then
        lines ++ [createLineString (vec3dArray2CoordSeq part false)]
      else
        lines)
    []

/-- The local variables of the `GEOM_POLYGON` case (lines 108-111): the
polygons completed so far, the pending shell and the hole accumulator, the last
two starting out null. -/
structure PolygonLoop where
  polys : List Polygon
  shell : Option LinearRing
  holes : Option (List LinearRing)
  deriving DecidableEq, Repr

/-- One iteration of the loop of the `GEOM_POLYGON` case (lines 115-140). -/
def polygonStep (isCCW : Vec3dArray → Bool) (st : PolygonLoop) (part : Vec3dArray) :
    PolygonLoop :=
  let seq := vec3dArray2CoordSeq part true
  if isCCW part then
    let st1 : PolygonLoop :=
      match st.shell with
      | some shell =>
          { polys := st.polys ++ [createPolygon shell st.holes], shell := none, holes := none }
      | none => st
    { st1 with shell := some (createLinearRing seq) }
  else
    let holes : List LinearRing :=
      match st.holes with
      | some hs => hs
      | none => []
    { st with holes := some (holes ++ [createLinearRing seq]) }

/-- The `GEOM_POLYGON` case (lines 106-149) up to the list handed to
`createMultiPolygon`: the loop, then the pending shell is finalized. -/
def importPolygons (isCCW : Vec3dArray → Bool) (input : FeatureGeometry) : List Polygon :=
  let st := input.foldl (polygonStep isCCW) ⟨[], none, none⟩
  match st.shell with
  | some shell => st.polys ++ [createPolygon shell st.holes]
  | none => st.polys

/-- `GEOSUtils::importGeometry`: dispatch on the geometry kind of the profile.
The result is `none` for the null pointer the function starts with. -/
def importGeometry (isCCW : Vec3dArray → Bool) (input : FeatureGeometry)
    (kind : GeometryType) : Option Geometry :=
  match kind with
  | .GEOM_POINT => some (.multiPoint ⟨importPoints input⟩)
  | .GEOM_LINE => some (.multiLineString ⟨importLines input⟩)
  | .GEOM_POLYGON => some (.multiPolygon ⟨importPolygons isCCW input⟩)
  | .GEOM_UNKNOWN => none

/-! ## `GEOSUtils::exportGeometry` (lines 155-248) -/

/-- The ring-copy loop that `exportGeometry` repeats for every ring (lines
190-197, 202-209, 223-230, 236-243): a part sized to the sequence, whose
`j`-th element is then set to `(x, y, 0)` of the `j`-th coordinate. -/
def ringToPart (s : CoordinateSequence) : Vec3dArray :=
  (List.range s.length).foldl
    (fun part j =>
      match s[j]? with
      | some c => part.set j ⟨c.x, c.y, 0⟩
      | none => part)
    (Vec3dArray.sized s.length)

/-- The interior-ring loop of `exportGeometry` (lines 199-210 and 233-244). -/
def exportInteriorRings (poly : Polygon) (output : FeatureGeometry) : FeatureGeometry :=
  (List.range poly.getNumInteriorRing).foldl
    (fun out k =>
      match poly.getInteriorRingN k with
      | some inner => out ++ [ringToPart inner.getCoordinates]
      | none => out)
    output

/-- The MultiPoint case (lines 164-171): a part sized to the number of points,
onto which one coordinate per point is then pushed. -/
def exportMultiPoint (mp : MultiPoint) (output : FeatureGeometry) : FeatureGeometry :=
  let part : Vec3dArray :=
    (List.range mp.getNumPoints).foldl
      (fun part i =>
        match mp.getGeometryN i with
        | some p => part ++ [⟨p.getX, p.getY, 0⟩]
        | none => part)
      (Vec3dArray.sized mp.getNumPoints)
  output ++ [part]

/-- The Polygon case (lines 184-211): the output is cleared, then receives the
exterior ring and, inside the same guard, the interior rings. -/
def exportPolygon (poly : Polygon) (_output : FeatureGeometry) : FeatureGeometry :=
  let output : FeatureGeometry := []
  match poly.getExteriorRing with
  | some outerRing =>
      exportInteriorRings poly (output ++ [ringToPart outerRing.getCoordinates])
  | none => output

/-- The MultiPolygon case (lines 216-245): for every member polygon, the
exterior ring under its guard, then the interior rings. -/
def exportMultiPolygon (mpoly : MultiPolygon) (output : FeatureGeometry) : FeatureGeometry :=
  (List.range mpoly.getNumGeometries).foldl
    (fun out i =>
      match mpoly.getGeometryN i with
      | some poly =>
          let out1 : FeatureGeometry :=
            match poly.getExteriorRing with
            | some outerRing => out ++ [ringToPart outerRing.getCoordinates]
            | none => out
          exportInteriorRings poly out1
      | none => out)
    output

/-- `GEOSUtils::exportGeometry`: the `dynamic_cast` chain, first match wins.  The
result pairs the returned flag with the output container after the call. -/
def exportGeometry (input : Geometry) (output : FeatureGeometry) : Bool × FeatureGeometry :=
  match input with
  | .point _ => (true, output)
  | .multiPoint mp => (true, exportMultiPoint mp output)
  | .lineString _ => (true, output)
  | .linearRing _ => (true, output)
  | .multiLineString _ => (true, output)
  | .polygon poly => (true, exportPolygon poly output)
  | .multiPolygon mpoly => (true, exportMultiPolygon mpoly output)
  | .geometryCollection _ => (true, output)

/-! ## Vocabulary of the statements -/

/-- The host coordinate `(x, y, 0)` carrying the X and Y of an external one. -/
def flatXY (c : Coordinate) : Vec3d :=
  ⟨c.x, c.y, 0⟩

/-- The host part carrying a ring: one coordinate per ring coordinate, in ring
order, X and Y kept and Z set to 0. -/
def ringPart (r : LinearRing) : Vec3dArray :=
  r.points.map flatXY

/-- The host parts carrying a polygon: the exterior ring first, then the
interior rings in ring order. -/
def polygonParts (poly : Polygon) : List Vec3dArray :=
  ringPart poly.shell :: poly.holes.map ringPart

/-- The ring the polygon case of `importGeometry` builds from a part: the
closed coordinate sequence of line 120 handed to `createLinearRing` (lines 131
and 138). -/
def ringOf (part : Vec3dArray) : LinearRing :=
  createLinearRing (vec3dArray2CoordSeq part true)

/-- The closed form of a host part as a host part: the coordinates of
`vec3dArray2CoordSeq part true`, X and Y kept, Z set to 0. -/
def closedPart (part : Vec3dArray) : Vec3dArray :=
  (vec3dArray2CoordSeq part true).map flatXY

/-- A host part is closed when its first and last coordinates compare equal in X
and in Y. -/
def isClosedXY (part : Vec3dArray) : Prop :=
  ∀ a b, part.head? = some a → part.getLast? = some b →
    a.x.eq b.x = true ∧ a.y.eq b.y = true

/-- Twice the signed area of a part by the shoelace sum over consecutive
coordinates, the part taken cyclically. -/
def crossSum : Vec3dArray → Int
  | a :: b :: rest =>
      (a.x.value * b.y.value - b.x.value * a.y.value) + crossSum (b :: rest)
  | _ => 0

/-- A sample winding test to instantiate the parameter `isCCW` at concrete
inputs: positive signed area. -/
def areaIsCCW (part : Vec3dArray) : Bool :=
  match part with
  | [] => false
  | a :: _ => decide (0 < crossSum (part ++ [a]))

/-- The host coordinate carrying the X, Y and Z of an external one: the way back
from `toCoordinate`. -/
def toVec3d (c : Coordinate) : Vec3d :=
  ⟨c.x, c.y, c.z⟩

/-- The rings of a polygon: the shell, then the holes in ring order. -/
def Polygon.rings (poly : Polygon) : List LinearRing :=
  poly.shell :: poly.holes

/-- The rings a state of the polygon loop holds in polygons: those of the
completed polygons, then the pending shell with the accumulated holes.  Holes
accumulated while no shell is pending are not counted. -/
def PolygonLoop.rings (st : PolygonLoop) : List LinearRing :=
  st.polys.flatMap Polygon.rings ++
    (match st.shell with
      | some shell => shell :: st.holes.getD []
      | none => [])

/-- The shells a state of the polygon loop holds: those of the completed
polygons, then the pending one. -/
def PolygonLoop.shells (st : PolygonLoop) : List LinearRing :=
  st.polys.map Polygon.shell ++ st.shell.toList

/-- The check the library makes when a Point is created from a coordinate
sequence, which `createPoint` here does not make: the sequence holds exactly one
coordinate. -/
def pointAccepted (seq : CoordinateSequence) : Bool :=
  decide (seq.length = 1)

/-- The check the library makes when a ring is created, which `createLinearRing`
here does not make: the ring is empty, or it has at least 4 coordinates and its
first compares equal to its last under `equals2D`. -/
def ringAccepted (seq : CoordinateSequence) : Bool :=
  match seq.head?, seq.getLast? with
  | some first, some last => decide (4 ≤ seq.length) && first.equals2D last
  | _, _ => true

/-! ## Loop lemmas -/

/-- An index loop `for i < size` whose body reads element `i` visits the
elements in order. -/
theorem foldl_range_getElem {α β : Type} (l : List α) (g : β → α → β) (init : β)
    (body : β → Nat → β)
    (hbody : ∀ acc i, body acc i = (l[i]?.map (g acc)).getD acc) :
    (List.range l.length).foldl body init = l.foldl g init := by
  have key : ∀ k, k ≤ l.length →
      (List.range k).foldl body init = (l.take k).foldl g init := by
    intro k
    induction k with
    | zero => intro _; simp
    | succ k ih =>
      intro hk
      have hlt : k < l.length := hk
      rw [List.range_succ, List.foldl_append, ih (Nat.le_of_lt hlt), List.take_succ,
        List.foldl_append]
      simp [hbody, List.getElem?_eq_getElem hlt]
  have := key l.length (le_refl _)
  simpa using this

/-- The ring-copy loop yields one `(x, y, 0)` per coordinate, in order. -/
theorem ringToPart_eq_map (s : CoordinateSequence) : ringToPart s = s.map flatXY := by
  have key : ∀ k, k ≤ s.length →
      (List.range k).foldl
        (fun part j => match s[j]? with
          | some c => part.set j (Vec3d.mk c.x c.y 0)
          | none => part)
        (Vec3dArray.sized s.length)
        = (s.take k).map flatXY ++ List.replicate (s.length - k) (Vec3d.mk 0 0 0) := by
    intro k
    induction k with
    | zero => intro _; simp [Vec3dArray.sized]
    | succ k ih =>
      intro hk
      have hlt : k < s.length := hk
      rw [List.range_succ, List.foldl_append, ih (Nat.le_of_lt hlt)]
      simp only [List.foldl_cons, List.foldl_nil, List.getElem?_eq_getElem hlt]
      have hlen : ((s.take k).map flatXY).length = k := by
        simp [Nat.min_eq_left (Nat.le_of_lt hlt)]
      rw [List.set_append_right _ _ (by rw [hlen]), hlen, Nat.sub_self]
      have hrep : s.length - k = (s.length - (k + 1)) + 1 := by omega
      have ht : s.take (k + 1) = s.take k ++ [s[k]] := by
        rw [List.take_succ, List.getElem?_eq_getElem hlt]; rfl
      rw [hrep, List.replicate_succ, List.set_cons_zero, ht, List.map_append,
        List.append_assoc]
      rfl
  have := key s.length (le_refl _)
  simpa [ringToPart] using this

/-- A loop that pushes one item per element is a `map` appended to the start. -/
theorem foldl_push_map {α β : Type} (f : α → β) (l : List α) (init : List β) :
    l.foldl (fun acc a => acc ++ [f a]) init = init ++ l.map f := by
  induction l generalizing init with
  | nil => simp
  | cons a l ih => simp [ih]

/-- A loop that pushes several items per element is a `flatMap`. -/
theorem foldl_append_flatMap {α β : Type} (f : α → List β) (l : List α) (init : List β) :
    l.foldl (fun acc a => acc ++ f a) init = init ++ l.flatMap f := by
  induction l generalizing init with
  | nil => simp
  | cons a l ih => simp [ih]

/-- A loop that pushes one item per element passing a guard. -/
theorem foldl_push_filter {α β : Type} (p : α → Bool) (f : α → β) (l : List α)
    (init : List β) :
    l.foldl (fun acc a => if p a then acc ++ [f a] else acc) init
      = init ++ (l.filter p).map f := by
  induction l generalizing init with
  | nil => simp
  | cons a l ih =>
    by_cases h : p a = true
    · simp [ih, h]
    · simp [ih, h]

/-- The interior-ring loop appends one part per interior ring, in ring order. -/
theorem exportInteriorRings_eq (poly : Polygon) (output : FeatureGeometry) :
    exportInteriorRings poly output = output ++ poly.holes.map ringPart := by
  unfold exportInteriorRings Polygon.getNumInteriorRing Polygon.getInteriorRingN
  rw [foldl_range_getElem poly.holes
    (fun out inner => out ++ [ringToPart inner.getCoordinates]) output _
    (by intro acc i; cases poly.holes[i]? <;> rfl)]
  rw [foldl_push_map]
  simp [ringToPart_eq_map, LinearRing.getCoordinates, ringPart]

/-- The Polygon case produces the polygon's parts, whatever the output held. -/
theorem exportPolygon_eq (poly : Polygon) (output : FeatureGeometry) :
    exportPolygon poly output = polygonParts poly := by
  simp [exportPolygon, Polygon.getExteriorRing, exportInteriorRings_eq, ringToPart_eq_map,
    LinearRing.getCoordinates, polygonParts, ringPart]

/-- The MultiPolygon case appends the parts of every member, in member order. -/
theorem exportMultiPolygon_eq (mpoly : MultiPolygon) (output : FeatureGeometry) :
    exportMultiPolygon mpoly output = output ++ mpoly.geometries.flatMap polygonParts := by
  unfold exportMultiPolygon MultiPolygon.getNumGeometries MultiPolygon.getGeometryN
  rw [foldl_range_getElem mpoly.geometries
    (fun out poly =>
      exportInteriorRings poly
        (match poly.getExteriorRing with
          | some outerRing => out ++ [ringToPart outerRing.getCoordinates]
          | none => out)) output _
    (by intro acc i; cases mpoly.geometries[i]? <;> rfl)]
  have h : (fun (out : FeatureGeometry) (poly : Polygon) =>
      exportInteriorRings poly
        (match poly.getExteriorRing with
          | some outerRing => out ++ [ringToPart outerRing.getCoordinates]
          | none => out)) = (fun out poly => out ++ polygonParts poly) := by
    funext out poly
    simp [Polygon.getExteriorRing, exportInteriorRings_eq, ringToPart_eq_map,
      LinearRing.getCoordinates, polygonParts, ringPart]
  rw [h, foldl_append_flatMap]

/-! ## Lemmas on `vec3dArray2CoordSeq` -/

/-- Without the close flag the builder is the plain copy. -/
theorem vec3dArray2CoordSeq_open (input : Vec3dArray) :
    vec3dArray2CoordSeq input false = input.map toCoordinate := by
  simp [vec3dArray2CoordSeq]

/-- With at most 2 coordinates nothing is appended. -/
theorem vec3dArray2CoordSeq_short (input : Vec3dArray) (close : Bool)
    (h : input.length ≤ 2) :
    vec3dArray2CoordSeq input close = input.map toCoordinate := by
  have : ¬ (2 < input.length) := by omega
  simp [vec3dArray2CoordSeq, this]

/-- With more than 2 coordinates and the close flag, the comparison of the first
with the last coordinate decides whether a copy of the first is appended. -/
theorem vec3dArray2CoordSeq_long (input : Vec3dArray) (first last : Vec3d)
    (hn : 2 < input.length) (hf : input.head? = some first)
    (hl : input.getLast? = some last) :
    vec3dArray2CoordSeq input true
      = if (toCoordinate first).ne (toCoordinate last) then
          input.map toCoordinate ++ [toCoordinate first]
        else input.map toCoordinate := by
  have h0 : (input.map toCoordinate)[0]? = some (toCoordinate first) := by
    rw [← List.head?_eq_getElem?, List.head?_map, hf]; rfl
  have h1 : (input.map toCoordinate)[(input.map toCoordinate).length - 1]?
      = some (toCoordinate last) := by
    rw [← List.getLast?_eq_getElem?, List.getLast?_map, hl]; rfl
  unfold vec3dArray2CoordSeq
  simp only [h0, h1]
  simp [hn]

/-! ## Lemmas on the polygon case of `importGeometry` -/

/-- A run of clockwise parts leaves the completed polygons and the pending shell
alone and appends one ring per part to the hole accumulator. -/
theorem foldl_polygonStep_cw (isCCW : Vec3dArray → Bool) (hs : FeatureGeometry)
    (hcw : ∀ h ∈ hs, isCCW h = false) (st : PolygonLoop) :
    (hs.foldl (polygonStep isCCW) st).polys = st.polys ∧
    (hs.foldl (polygonStep isCCW) st).shell = st.shell ∧
    (hs.foldl (polygonStep isCCW) st).holes.getD [] = st.holes.getD [] ++ hs.map ringOf := by
  induction hs generalizing st with
  | nil => simp
  | cons h hs ih =>
    have hh : isCCW h = false := hcw h (List.mem_cons_self _ _)
    have ih1 := ih (fun x hx => hcw x (List.mem_cons_of_mem _ hx)) (polygonStep isCCW st h)
    simp only [List.foldl_cons]
    refine ⟨ih1.1.trans ?_, ih1.2.1.trans ?_, ih1.2.2.trans ?_⟩
    · simp [polygonStep, hh]
    · simp [polygonStep, hh]
    · cases hst : st.holes <;> simp [polygonStep, hh, hst, ringOf]

/-- One counter-clockwise part followed by clockwise parts imports as one
polygon: the first part as shell, the others as its holes in input order. -/
theorem importPolygons_shell_holes (isCCW : Vec3dArray → Bool) (shell : Vec3dArray)
    (holes : FeatureGeometry) (hs : isCCW shell = true)
    (hh : ∀ h ∈ holes, isCCW h = false) :
    importPolygons isCCW (shell :: holes) = [⟨ringOf shell, holes.map ringOf⟩] := by
  have h := foldl_polygonStep_cw isCCW holes hh
    (polygonStep isCCW ⟨[], none, none⟩ shell)
  have h0 : polygonStep isCCW ⟨[], none, none⟩ shell = ⟨[], some (ringOf shell), none⟩ := by
    simp [polygonStep, hs, ringOf]
  rw [h0] at h
  obtain ⟨hp, hsh, hho⟩ := h
  simp only [importPolygons, List.foldl_cons, h0]
  rw [hsh]
  simp only [hp, createPolygon, hho]
  simp

/-! ## Lemmas on the point and line cases -/

/-- The loop of the point case keeps the parts of at least 2 coordinates, each
wrapped whole into one Point. -/
theorem importPoints_eq (input : FeatureGeometry) :
    importPoints input
      = (input.filter (fun part => decide (part.length ≥ 2))).map
          (fun part => createPoint (vec3dArray2CoordSeq part false)) := by
  unfold importPoints
  have h := foldl_push_filter (fun part : Vec3dArray => decide (part.length ≥ 2))
    (fun part => createPoint (vec3dArray2CoordSeq part false)) input []
  simpa using h

/-- The loop of the line case keeps the parts of at least 2 coordinates. -/
theorem importLines_eq (input : FeatureGeometry) :
    importLines input
      = (input.filter (fun part => decide (part.length ≥ 2))).map
          (fun part => createLineString (vec3dArray2CoordSeq part false)) := by
  unfold importLines
  have h := foldl_push_filter (fun part : Vec3dArray => decide (part.length ≥ 2))
    (fun part => createLineString (vec3dArray2CoordSeq part false)) input []
  simpa using h

/-- A double that is a number compares equal to itself. -/
theorem Double.eq_self (d : Double) (h : d ≠ Double.nan) : d.eq d = true := by
  cases d with
  | num v => simp [Double.eq]
  | nan => exact absurd rfl h

/-- The closed form of a part that does not have exactly 2 coordinates, and whose
first coordinate has numbers for X and Y, is closed. -/
theorem closedPart_isClosedXY (part : Vec3dArray) (h : part.length ≠ 2)
    (hnum : ∀ first, part.head? = some first → first.x ≠ Double.nan ∧ first.y ≠ Double.nan) :
    isClosedXY (closedPart part) := by
  intro a b ha hb
  by_cases hn : 2 < part.length
  · obtain ⟨first, hf⟩ : ∃ first, part.head? = some first := by
      cases part with
      | nil => simp at hn
      | cons v _ => exact ⟨v, rfl⟩
    obtain ⟨last, hl⟩ : ∃ last, part.getLast? = some last := by
      cases hlast : part.getLast? with
      | none => rw [List.getLast?_eq_none_iff] at hlast; simp [hlast] at hn
      | some v => exact ⟨v, rfl⟩
    obtain ⟨hx, hy⟩ := hnum first hf
    have hseq := vec3dArray2CoordSeq_long part first last hn hf hl
    have hhead : (part.map toCoordinate).head? = some (toCoordinate first) := by
      rw [List.head?_map, hf]; rfl
    have hlast : (part.map toCoordinate).getLast? = some (toCoordinate last) := by
      rw [List.getLast?_map, hl]; rfl
    unfold closedPart at ha hb
    rw [hseq] at ha hb
    by_cases hne : (toCoordinate first).ne (toCoordinate last) = true
    · rw [if_pos hne] at ha hb
      rw [List.head?_map, List.head?_append, hhead] at ha
      rw [List.getLast?_map, List.getLast?_append] at hb
      simp at ha hb
      subst ha; subst hb
      exact ⟨Double.eq_self _ hx, Double.eq_self _ hy⟩
    · rw [if_neg hne] at ha hb
      rw [List.head?_map, hhead] at ha
      rw [List.getLast?_map, hlast] at hb
      simp at ha hb
      subst ha; subst hb
      simp [Coordinate.ne, Coordinate.equals2D, toCoordinate] at hne
      exact hne
  · have hshort : part.length ≤ 2 := by omega
    unfold closedPart at ha hb
    rw [vec3dArray2CoordSeq_short part true hshort] at ha hb
    match part, h, hnum, ha, hb with
    | [], _, _, ha, _ => simp at ha
    | [v], _, hnum, ha, hb =>
      obtain ⟨hx, hy⟩ := hnum v rfl
      simp at ha hb
      subst ha; subst hb
      exact ⟨Double.eq_self _ hx, Double.eq_self _ hy⟩
    | [_, _], h, _, _, _ => simp at h
    | _ :: _ :: _ :: _, _, _, _, _ => simp at hshort

/-- Doubles that compare equal are numbers. -/
theorem Double.ne_nan_of_eq (a b : Double) (h : a.eq b = true) : a ≠ Double.nan := by
  intro ha
  subst ha
  simp [Double.eq] at h

/-- A part whose closed ring the library accepts does not have exactly 2
coordinates, and the X and Y of its first coordinate are numbers. -/
theorem part_of_ringAccepted (part : Vec3dArray)
    (h : ringAccepted (vec3dArray2CoordSeq part true) = true) :
    part.length ≠ 2 ∧
    ∀ first, part.head? = some first → first.x ≠ Double.nan ∧ first.y ≠ Double.nan := by
  by_cases hn : 2 < part.length
  · refine ⟨by omega, ?_⟩
    intro first hf
    obtain ⟨last, hl⟩ : ∃ last, part.getLast? = some last := by
      cases hlast : part.getLast? with
      | none => rw [List.getLast?_eq_none_iff] at hlast; simp [hlast] at hn
      | some v => exact ⟨v, rfl⟩
    have hseq := vec3dArray2CoordSeq_long part first last hn hf hl
    have hhead : (part.map toCoordinate).head? = some (toCoordinate first) := by
      rw [List.head?_map, hf]; rfl
    have hlast : (part.map toCoordinate).getLast? = some (toCoordinate last) := by
      rw [List.getLast?_map, hl]; rfl
    rw [hseq] at h
    by_cases hne : (toCoordinate first).ne (toCoordinate last) = true
    · rw [if_pos hne] at h
      have h1 : (part.map toCoordinate ++ [toCoordinate first]).head?
          = some (toCoordinate first) := by
        rw [List.head?_append, hhead]; rfl
      have h2 : (part.map toCoordinate ++ [toCoordinate first]).getLast?
          = some (toCoordinate first) := by
        simp
      unfold ringAccepted at h
      rw [h1, h2] at h
      simp only [Bool.and_eq_true, Coordinate.equals2D, toCoordinate] at h
      exact ⟨Double.ne_nan_of_eq _ _ h.2.1, Double.ne_nan_of_eq _ _ h.2.2⟩
    · rw [if_neg hne] at h
      unfold ringAccepted at h
      rw [hhead, hlast] at h
      simp only [Bool.and_eq_true, Coordinate.equals2D, toCoordinate] at h
      exact ⟨Double.ne_nan_of_eq _ _ h.2.1, Double.ne_nan_of_eq _ _ h.2.2⟩
  · have hshort : part.length ≤ 2 := by omega
    rw [vec3dArray2CoordSeq_short part true hshort] at h
    match part, h with
    | [], _ => exact ⟨by simp, by simp⟩
    | [_], h => simp [ringAccepted] at h
    | [_, _], h => simp [ringAccepted] at h
    | _ :: _ :: _ :: _, _ => simp at hshort

/-! ## Invariants of the polygon loop -/

/-- One iteration of the polygon loop with a shell pending: the shell stays
pending and the rings held grow by the ring of the part. -/
theorem polygonStep_rings (isCCW : Vec3dArray → Bool) (st : PolygonLoop)
    (part : Vec3dArray) (sh : LinearRing) (hsh : st.shell = some sh) :
    (∃ sh1, (polygonStep isCCW st part).shell = some sh1) ∧
    (polygonStep isCCW st part).rings = st.rings ++ [ringOf part] := by
  by_cases hc : isCCW part = true
  · refine ⟨⟨ringOf part, by simp [polygonStep, hc, hsh, ringOf]⟩, ?_⟩
    simp [polygonStep, hc, hsh, PolygonLoop.rings, Polygon.rings, createPolygon, ringOf]
  · have hc1 : isCCW part = false := by simpa using hc
    refine ⟨⟨sh, by simp [polygonStep, hc1, hsh]⟩, ?_⟩
    cases hho : st.holes <;>
      simp [polygonStep, hc1, hsh, hho, PolygonLoop.rings, ringOf]

/-- The polygon loop run from a state with a shell pending: the rings held grow
by one ring per part, in part order. -/
theorem foldl_polygonStep_rings (isCCW : Vec3dArray → Bool) (parts : FeatureGeometry)
    (st : PolygonLoop) (sh : LinearRing) (hsh : st.shell = some sh) :
    (∃ sh1, (parts.foldl (polygonStep isCCW) st).shell = some sh1) ∧
    (parts.foldl (polygonStep isCCW) st).rings = st.rings ++ parts.map ringOf := by
  induction parts generalizing st sh with
  | nil => exact ⟨⟨sh, hsh⟩, by simp⟩
  | cons part rest ih =>
    obtain ⟨⟨sh1, hsh1⟩, hrings⟩ := polygonStep_rings isCCW st part sh hsh
    obtain ⟨hex, hr⟩ := ih (polygonStep isCCW st part) sh1 hsh1
    refine ⟨hex, ?_⟩
    simp only [List.foldl_cons, hr, hrings, List.map_cons, List.append_assoc,
      List.singleton_append]

/-- The polygons handed to `createMultiPolygon` hold the rings of the final loop
state. -/
theorem importPolygons_rings (isCCW : Vec3dArray → Bool) (input : FeatureGeometry) :
    (importPolygons isCCW input).flatMap Polygon.rings
      = (input.foldl (polygonStep isCCW) ⟨[], none, none⟩).rings := by
  unfold importPolygons
  generalize input.foldl (polygonStep isCCW) ⟨[], none, none⟩ = st
  obtain ⟨polys, shell, holes⟩ := st
  cases shell <;> simp [PolygonLoop.rings, createPolygon, Polygon.rings]

/-- Clockwise parts, then a counter-clockwise part, then any parts: the polygons
hold the ring of the counter-clockwise part, the rings of the leading clockwise
parts, and the rings of the parts that follow. -/
theorem importPolygons_rings_split (isCCW : Vec3dArray → Bool)
    (pre : FeatureGeometry) (first : Vec3dArray) (rest : FeatureGeometry)
    (hpre : ∀ h ∈ pre, isCCW h = false) (hfirst : isCCW first = true) :
    (importPolygons isCCW (pre ++ first :: rest)).flatMap Polygon.rings
      = ringOf first :: (pre.map ringOf ++ rest.map ringOf) := by
  rw [importPolygons_rings, List.foldl_append, List.foldl_cons]
  obtain ⟨hp, hs, hh⟩ := foldl_polygonStep_cw isCCW pre hpre ⟨[], none, none⟩
  have hstep :
      (polygonStep isCCW (pre.foldl (polygonStep isCCW) ⟨[], none, none⟩) first).shell
        = some (ringOf first) := by
    simp [polygonStep, hfirst, ringOf]
  have hstepRings :
      (polygonStep isCCW (pre.foldl (polygonStep isCCW) ⟨[], none, none⟩) first).rings
        = ringOf first :: pre.map ringOf := by
    simp only [PolygonLoop.rings, hstep]
    simp only [polygonStep, hfirst, if_true, hs]
    simp at hh hp
    simp [hp, hh, ringOf]
  obtain ⟨_, hr⟩ := foldl_polygonStep_rings isCCW rest _ _ hstep
  rw [hr, hstepRings]
  simp

/-- A list with a counter-clockwise part splits at its first one. -/
theorem exists_first_ccw (isCCW : Vec3dArray → Bool) (input : FeatureGeometry)
    (h : ∃ part ∈ input, isCCW part = true) :
    ∃ pre first rest, input = pre ++ first :: rest ∧
      (∀ p ∈ pre, isCCW p = false) ∧ isCCW first = true := by
  induction input with
  | nil => simp at h
  | cons a l ih =>
    by_cases ha : isCCW a = true
    · exact ⟨[], a, l, rfl, by simp, ha⟩
    · have ha1 : isCCW a = false := by simpa using ha
      obtain ⟨part, hmem, hpart⟩ := h
      have hl : ∃ part ∈ l, isCCW part = true := by
        rcases List.mem_cons.mp hmem with rfl | hin
        · exact absurd hpart ha
        · exact ⟨part, hin, hpart⟩
      obtain ⟨pre, first, rest, heq, hpre, hfirst⟩ := ih hl
      refine ⟨a :: pre, first, rest, by simp [heq], ?_, hfirst⟩
      intro p hp
      rcases List.mem_cons.mp hp with rfl | hin
      · exact ha1
      · exact hpre p hin

/-- One iteration of the polygon loop: a counter-clockwise part adds its ring to
the shells held, a clockwise part leaves them alone. -/
theorem polygonStep_shells (isCCW : Vec3dArray → Bool) (st : PolygonLoop)
    (part : Vec3dArray) :
    (polygonStep isCCW st part).shells
      = st.shells ++ (if isCCW part then [ringOf part] else []) := by
  by_cases hc : isCCW part = true
  · cases hsh : st.shell <;>
      simp [polygonStep, hc, hsh, PolygonLoop.shells, createPolygon, ringOf]
  · have hc1 : isCCW part = false := by simpa using hc
    simp [polygonStep, hc1, PolygonLoop.shells]

/-- The polygon loop: the shells held grow by the rings of the counter-clockwise
parts, in part order. -/
theorem foldl_polygonStep_shells (isCCW : Vec3dArray → Bool) (parts : FeatureGeometry)
    (st : PolygonLoop) :
    (parts.foldl (polygonStep isCCW) st).shells
      = st.shells ++ (parts.filter isCCW).map ringOf := by
  induction parts generalizing st with
  | nil => simp
  | cons part rest ih =>
    rw [List.foldl_cons, ih, polygonStep_shells]
    by_cases hc : isCCW part = true
    · simp [hc]
    · have hc1 : isCCW part = false := by simpa using hc
      simp [hc1]

/-- The shells of the polygons handed to `createMultiPolygon` are the rings of
the counter-clockwise parts, in input order. -/
theorem importPolygons_shells (isCCW : Vec3dArray → Bool) (input : FeatureGeometry) :
    (importPolygons isCCW input).map Polygon.shell = (input.filter isCCW).map ringOf := by
  have h := foldl_polygonStep_shells isCCW input ⟨[], none, none⟩
  have h0 : (PolygonLoop.mk [] none none).shells = [] := rfl
  rw [h0, List.nil_append] at h
  rw [← h]
  unfold importPolygons
  generalize input.foldl (polygonStep isCCW) ⟨[], none, none⟩ = st
  obtain ⟨polys, shell, holes⟩ := st
  cases shell <;> simp [PolygonLoop.shells, createPolygon]

/-- The parts of a list of polygons are the parts of their rings. -/
theorem flatMap_polygonParts (polys : List Polygon) :
    polys.flatMap polygonParts = (polys.flatMap Polygon.rings).map ringPart := by
  induction polys with
  | nil => rfl
  | cons p ps ih => simp [List.flatMap_cons, ih, polygonParts, Polygon.rings]

/-- The part carrying the ring built from a part is the closed form of the part. -/
theorem ringPart_ringOf (part : Vec3dArray) : ringPart (ringOf part) = closedPart part :=
  rfl

/-- Going to an external coordinate and back is the identity. -/
theorem map_toVec3d_toCoordinate (part : Vec3dArray) :
    (part.map toCoordinate).map toVec3d = part := by
  induction part with
  | nil => rfl
  | cons v vs ih => simp [toCoordinate, toVec3d] at ih ⊢; exact ih

/-- A coordinate whose X and Y are numbers does not differ from itself under the
library's `!=`. -/
theorem Coordinate.ne_self (c : Coordinate) (hx : c.x ≠ Double.nan) (hy : c.y ≠ Double.nan) :
    c.ne c = false := by
  simp [Coordinate.ne, Coordinate.equals2D, Double.eq_self _ hx, Double.eq_self _ hy]

/-! ## The claims -/

/-- C1, the code at the one-part input `(1,2,3) (4,5,6)`: the loop of the point
case makes one call of `createPoint` for the part and hands it the part's whole
coordinate sequence, 2 coordinates (line 82-83), where the claim needs one Point
per coordinate.  The library's Point holds exactly one coordinate and refuses
that sequence, so the import raises and nothing comes back. -/
theorem importGeometry_point_whole_part :
    importGeometry areaIsCCW [[⟨1, 2, 3⟩, ⟨4, 5, 6⟩]] .GEOM_POINT
      = some (.multiPoint
          ⟨[createPoint (vec3dArray2CoordSeq [⟨1, 2, 3⟩, ⟨4, 5, 6⟩] false)]⟩) ∧
    vec3dArray2CoordSeq [⟨1, 2, 3⟩, ⟨4, 5, 6⟩] false = [⟨1, 2, 3⟩, ⟨4, 5, 6⟩] ∧
    pointAccepted (vec3dArray2CoordSeq [⟨1, 2, 3⟩, ⟨4, 5, 6⟩] false) = false := by
  decide

/-- C2, as amended. Closing rule of `vec3dArray2CoordSeq` with `close = true`, for
a part of `n` coordinates, the first coordinate being compared with the last the
way line 55 compares them, on X and Y with the `==` of doubles, Z left out.
(1) If `n ≥ 3` and the first coordinate differs from the last in X or in Y, the
output is the `n` copied coordinates followed by one more, a copy of the first,
so it has `n + 1` coordinates.  (2) If the first coordinate equals the last in X
and in Y, the output has `n` coordinates.  (3) If `n ≤ 2`, the output has `n`
coordinates, whatever the coordinates are. -/
theorem vec3dArray2CoordSeq_closing_rule (input : Vec3dArray) :
    (∀ first last, input.head? = some first → input.getLast? = some last →
        3 ≤ input.length → (toCoordinate first).ne (toCoordinate last) = true →
        (vec3dArray2CoordSeq input true).length = input.length + 1 ∧
        vec3dArray2CoordSeq input true = input.map toCoordinate ++ [toCoordinate first]) ∧
    (∀ first last, input.head? = some first → input.getLast? = some last →
        (toCoordinate first).ne (toCoordinate last) = false →
        (vec3dArray2CoordSeq input true).length = input.length) ∧
    (input.length ≤ 2 → (vec3dArray2CoordSeq input true).length = input.length) := by
  refine ⟨?_, ?_, ?_⟩
  · intro first last hf hl hn hne
    have h := vec3dArray2CoordSeq_long input first last hn hf hl
    rw [hne] at h
    simp only [if_true] at h
    rw [h]
    simp
  · intro first last hf hl heq
    by_cases hn : 2 < input.length
    · have h := vec3dArray2CoordSeq_long input first last hn hf hl
      rw [heq] at h
      simp at h
      rw [h]
      simp
    · rw [vec3dArray2CoordSeq_short input true (by omega)]
      simp
  · intro hn
    rw [vec3dArray2CoordSeq_short input true hn]
    simp

/-- C2 as amended, at concrete parts: an open triangle gains its first coordinate, a
triangle already closed in X and Y gains nothing, and an open 2-coordinate part
gains nothing. -/
theorem vec3dArray2CoordSeq_closing_rule_witness :
    vec3dArray2CoordSeq [⟨0, 0, 7⟩, ⟨4, 0, 7⟩, ⟨0, 4, 7⟩] true
        = [⟨0, 0, 7⟩, ⟨4, 0, 7⟩, ⟨0, 4, 7⟩, ⟨0, 0, 7⟩] ∧
    (vec3dArray2CoordSeq [⟨0, 0, 7⟩, ⟨4, 0, 7⟩, ⟨0, 4, 7⟩, ⟨0, 0, 9⟩] true).length = 4 ∧
    (vec3dArray2CoordSeq [⟨0, 0, 7⟩, ⟨4, 0, 7⟩] true).length = 2 :=
  ⟨((vec3dArray2CoordSeq_closing_rule [⟨0, 0, 7⟩, ⟨4, 0, 7⟩, ⟨0, 4, 7⟩]).1
      ⟨0, 0, 7⟩ ⟨0, 4, 7⟩ rfl rfl (by decide) (by decide)).2,
   (vec3dArray2CoordSeq_closing_rule [⟨0, 0, 7⟩, ⟨4, 0, 7⟩, ⟨0, 4, 7⟩, ⟨0, 0, 9⟩]).2.1
      ⟨0, 0, 7⟩ ⟨0, 0, 9⟩ rfl rfl (by decide),
   (vec3dArray2CoordSeq_closing_rule [⟨0, 0, 7⟩, ⟨4, 0, 7⟩]).2.2 (by decide)⟩

/-- C2 as stated fails: the part `(0,0,7) (4,0,7) (0,4,7) (0,0,9)` has 4
coordinates and its first coordinate is not equal to its last, which has another
Z, yet the output has 4 coordinates and not 5: the comparison of line 55 finds
X and Y equal and appends nothing. -/
theorem vec3dArray2CoordSeq_closing_rule_z_differs :
    3 ≤ ([⟨0, 0, 7⟩, ⟨4, 0, 7⟩, ⟨0, 4, 7⟩, ⟨0, 0, 9⟩] : Vec3dArray).length ∧
    ([⟨0, 0, 7⟩, ⟨4, 0, 7⟩, ⟨0, 4, 7⟩, ⟨0, 0, 9⟩] : Vec3dArray).head? = some ⟨0, 0, 7⟩ ∧
    ([⟨0, 0, 7⟩, ⟨4, 0, 7⟩, ⟨0, 4, 7⟩, ⟨0, 0, 9⟩] : Vec3dArray).getLast? = some ⟨0, 0, 9⟩ ∧
    toCoordinate ⟨0, 0, 7⟩ ≠ toCoordinate ⟨0, 0, 9⟩ ∧
    vec3dArray2CoordSeq [⟨0, 0, 7⟩, ⟨4, 0, 7⟩, ⟨0, 4, 7⟩, ⟨0, 0, 9⟩] true
      = [⟨0, 0, 7⟩, ⟨4, 0, 7⟩, ⟨0, 4, 7⟩, ⟨0, 0, 9⟩] ∧
    (vec3dArray2CoordSeq [⟨0, 0, 7⟩, ⟨4, 0, 7⟩, ⟨0, 4, 7⟩, ⟨0, 0, 9⟩] true).length
      ≠ ([⟨0, 0, 7⟩, ⟨4, 0, 7⟩, ⟨0, 4, 7⟩, ⟨0, 0, 9⟩] : Vec3dArray).length + 1 := by
  decide

/-- C3, the code at the two-part polygon input whose part 0 is the clockwise
triangle `(1,1) (1,2) (2,1)` and whose part 1 is the counter-clockwise triangle
`(0,0) (4,0) (0,4)`: the one Polygon returned has the ring of part 1 as shell and
the ring of part 0 as its hole, so the hole comes from a part that occurs before
the part of its shell. -/
theorem importGeometry_polygon_leading_hole :
    areaIsCCW [⟨1, 1, 5⟩, ⟨1, 2, 5⟩, ⟨2, 1, 5⟩] = false ∧
    areaIsCCW [⟨0, 0, 7⟩, ⟨4, 0, 7⟩, ⟨0, 4, 7⟩] = true ∧
    importGeometry areaIsCCW
        [[⟨1, 1, 5⟩, ⟨1, 2, 5⟩, ⟨2, 1, 5⟩], [⟨0, 0, 7⟩, ⟨4, 0, 7⟩, ⟨0, 4, 7⟩]] .GEOM_POLYGON
      = some (.multiPolygon ⟨[
          ⟨⟨[⟨0, 0, 7⟩, ⟨4, 0, 7⟩, ⟨0, 4, 7⟩, ⟨0, 0, 7⟩]⟩,
           [⟨[⟨1, 1, 5⟩, ⟨1, 2, 5⟩, ⟨2, 1, 5⟩, ⟨1, 1, 5⟩]⟩]⟩]⟩) := by
  decide

/-- C4. For every polygon-kind input made of one counter-clockwise part followed
by `k ≥ 0` clockwise parts, `importGeometry` returns a MultiPolygon of exactly one
Polygon: its shell is the ring built from the counter-clockwise part, and its
holes are the rings built from the clockwise parts, in input order, so there are
exactly `k` of them. -/
theorem importGeometry_polygon_one_shell (isCCW : Vec3dArray → Bool) (shell : Vec3dArray)
    (holes : FeatureGeometry) (hs : isCCW shell = true)
    (hh : ∀ h ∈ holes, isCCW h = false) :
    ∃ poly,
      importGeometry isCCW (shell :: holes) .GEOM_POLYGON = some (.multiPolygon ⟨[poly]⟩) ∧
      poly.shell = createLinearRing (vec3dArray2CoordSeq shell true) ∧
      poly.holes = holes.map (fun h => createLinearRing (vec3dArray2CoordSeq h true)) ∧
      poly.getNumInteriorRing = holes.length := by
  refine ⟨⟨ringOf shell, holes.map ringOf⟩, ?_, rfl, rfl, ?_⟩
  · simp [importGeometry, importPolygons_shell_holes isCCW shell holes hs hh]
  · simp [Polygon.getNumInteriorRing]

/-- C4, at a concrete input: a counter-clockwise triangle followed by two
clockwise triangles. -/
theorem importGeometry_polygon_one_shell_witness :
    ∃ poly,
      importGeometry areaIsCCW
          ([⟨0, 0, 7⟩, ⟨9, 0, 7⟩, ⟨0, 9, 7⟩]
            :: [[⟨1, 1, 5⟩, ⟨1, 2, 5⟩, ⟨2, 1, 5⟩], [⟨3, 3, 5⟩, ⟨3, 4, 5⟩, ⟨4, 3, 5⟩]])
          .GEOM_POLYGON = some (.multiPolygon ⟨[poly]⟩) ∧
      poly.shell = createLinearRing (vec3dArray2CoordSeq [⟨0, 0, 7⟩, ⟨9, 0, 7⟩, ⟨0, 9, 7⟩] true) ∧
      poly.holes = ([[⟨1, 1, 5⟩, ⟨1, 2, 5⟩, ⟨2, 1, 5⟩], [⟨3, 3, 5⟩, ⟨3, 4, 5⟩, ⟨4, 3, 5⟩]]
          : FeatureGeometry).map (fun h => createLinearRing (vec3dArray2CoordSeq h true)) ∧
      poly.getNumInteriorRing
        = ([[⟨1, 1, 5⟩, ⟨1, 2, 5⟩, ⟨2, 1, 5⟩], [⟨3, 3, 5⟩, ⟨3, 4, 5⟩, ⟨4, 3, 5⟩]]
          : FeatureGeometry).length :=
  importGeometry_polygon_one_shell areaIsCCW [⟨0, 0, 7⟩, ⟨9, 0, 7⟩, ⟨0, 9, 7⟩]
    [[⟨1, 1, 5⟩, ⟨1, 2, 5⟩, ⟨2, 1, 5⟩], [⟨3, 3, 5⟩, ⟨3, 4, 5⟩, ⟨4, 3, 5⟩]]
    (by decide) (by decide)

/-- C5. For every polygon-kind input made of one counter-clockwise part followed
by `k ≥ 0` clockwise parts, exporting the single Polygon that `importGeometry`
returns yields, whatever the prior output, exactly `k + 1` host parts: part 0 is
the closed form of the shell part and parts `1..k` are the closed forms of the
hole parts in input order, every coordinate with its X and Y and with Z = 0. -/
theorem importGeometry_polygon_export (isCCW : Vec3dArray → Bool) (shell : Vec3dArray)
    (holes : FeatureGeometry) (hs : isCCW shell = true)
    (hh : ∀ h ∈ holes, isCCW h = false) (prior : FeatureGeometry) :
    ∃ poly,
      importGeometry isCCW (shell :: holes) .GEOM_POLYGON = some (.multiPolygon ⟨[poly]⟩) ∧
      exportGeometry (.polygon poly) prior
        = (true, (shell :: holes).map (fun part =>
            (vec3dArray2CoordSeq part true).map (fun c => Vec3d.mk c.x c.y 0))) ∧
      (exportGeometry (.polygon poly) prior).2.length = holes.length + 1 := by
  refine ⟨⟨ringOf shell, holes.map ringOf⟩, ?_, ?_, ?_⟩
  · simp [importGeometry, importPolygons_shell_holes isCCW shell holes hs hh]
  · simp only [exportGeometry, exportPolygon_eq]
    simp [polygonParts, ringPart, ringOf, createLinearRing, flatXY]
  · simp only [exportGeometry, exportPolygon_eq]
    simp [polygonParts]

/-- C5, at a concrete input: a counter-clockwise triangle followed by one
clockwise triangle, exported over a prior output of one part. -/
theorem importGeometry_polygon_export_witness :
    ∃ poly,
      importGeometry areaIsCCW
          ([⟨0, 0, 7⟩, ⟨9, 0, 7⟩, ⟨0, 9, 7⟩] :: [[⟨1, 1, 5⟩, ⟨1, 2, 5⟩, ⟨2, 1, 5⟩]])
          .GEOM_POLYGON = some (.multiPolygon ⟨[poly]⟩) ∧
      exportGeometry (.polygon poly) [[⟨8, 8, 8⟩]]
        = (true, ([⟨0, 0, 7⟩, ⟨9, 0, 7⟩, ⟨0, 9, 7⟩] :: [[⟨1, 1, 5⟩, ⟨1, 2, 5⟩, ⟨2, 1, 5⟩]]).map
            (fun part => (vec3dArray2CoordSeq part true).map (fun c => Vec3d.mk c.x c.y 0))) ∧
      (exportGeometry (.polygon poly) [[⟨8, 8, 8⟩]]).2.length
        = ([[⟨1, 1, 5⟩, ⟨1, 2, 5⟩, ⟨2, 1, 5⟩]] : FeatureGeometry).length + 1 :=
  importGeometry_polygon_export areaIsCCW [⟨0, 0, 7⟩, ⟨9, 0, 7⟩, ⟨0, 9, 7⟩]
    [[⟨1, 1, 5⟩, ⟨1, 2, 5⟩, ⟨2, 1, 5⟩]] (by decide) (by decide) [[⟨8, 8, 8⟩]]

/-- C6. For every polygon-kind input made of one counter-clockwise part followed
by zero or more clockwise parts, on which the import returns, that is, whose
rings the library accepts, every host part obtained by importing it and
exporting the resulting Polygon is closed: its first coordinate compares equal
to its last in X and in Y. -/
theorem importGeometry_polygon_export_closed (isCCW : Vec3dArray → Bool)
    (shell : Vec3dArray) (holes : FeatureGeometry) (hs : isCCW shell = true)
    (hh : ∀ h ∈ holes, isCCW h = false)
    (hacc : ∀ part ∈ shell :: holes, ringAccepted (vec3dArray2CoordSeq part true) = true)
    (prior : FeatureGeometry) :
    ∃ poly,
      importGeometry isCCW (shell :: holes) .GEOM_POLYGON = some (.multiPolygon ⟨[poly]⟩) ∧
      ∀ part ∈ (exportGeometry (.polygon poly) prior).2,
        ∀ a b, part.head? = some a → part.getLast? = some b →
          a.x.eq b.x = true ∧ a.y.eq b.y = true := by
  refine ⟨⟨ringOf shell, holes.map ringOf⟩, ?_, ?_⟩
  · simp [importGeometry, importPolygons_shell_holes isCCW shell holes hs hh]
  · intro part hpart
    simp only [exportGeometry, exportPolygon_eq, polygonParts, List.mem_cons,
      List.mem_map] at hpart
    rcases hpart with rfl | ⟨r, hr, rfl⟩
    · have hp := part_of_ringAccepted shell (hacc shell (List.mem_cons_self _ _))
      exact closedPart_isClosedXY shell hp.1 hp.2
    · obtain ⟨h, hmem, rfl⟩ := hr
      have hp := part_of_ringAccepted h (hacc h (List.mem_cons_of_mem _ hmem))
      exact closedPart_isClosedXY h hp.1 hp.2

/-- C6, at a concrete input: a counter-clockwise triangle followed by one
clockwise triangle, both closed by the import into rings of 4 coordinates. -/
theorem importGeometry_polygon_export_closed_witness :
    (∀ part ∈ ([⟨0, 0, 7⟩, ⟨9, 0, 7⟩, ⟨0, 9, 7⟩] :: [[⟨1, 1, 5⟩, ⟨1, 2, 5⟩, ⟨2, 1, 5⟩]]
        : FeatureGeometry), ringAccepted (vec3dArray2CoordSeq part true) = true) ∧
    ∃ poly,
      importGeometry areaIsCCW
          ([⟨0, 0, 7⟩, ⟨9, 0, 7⟩, ⟨0, 9, 7⟩] :: [[⟨1, 1, 5⟩, ⟨1, 2, 5⟩, ⟨2, 1, 5⟩]])
          .GEOM_POLYGON = some (.multiPolygon ⟨[poly]⟩) ∧
      ∀ part ∈ (exportGeometry (.polygon poly) []).2,
        ∀ a b, part.head? = some a → part.getLast? = some b →
          a.x.eq b.x = true ∧ a.y.eq b.y = true :=
  ⟨by decide,
   importGeometry_polygon_export_closed areaIsCCW [⟨0, 0, 7⟩, ⟨9, 0, 7⟩, ⟨0, 9, 7⟩]
    [[⟨1, 1, 5⟩, ⟨1, 2, 5⟩, ⟨2, 1, 5⟩]] (by decide) (by decide) (by decide) []⟩

/-- C7. For every polygon-kind input of four parts whose windings are, in order,
counter-clockwise, clockwise, counter-clockwise, clockwise, `importGeometry`
returns a MultiPolygon of exactly two Polygons, in input order: the first has the
ring of part 1 as shell and the ring of part 2 as its only hole, the second has
the ring of part 3 as shell and the ring of part 4 as its only hole. -/
theorem importGeometry_polygon_shell_hole_twice (isCCW : Vec3dArray → Bool)
    (p1 p2 p3 p4 : Vec3dArray) (h1 : isCCW p1 = true) (h2 : isCCW p2 = false)
    (h3 : isCCW p3 = true) (h4 : isCCW p4 = false) :
    importGeometry isCCW [p1, p2, p3, p4] .GEOM_POLYGON
      = some (.multiPolygon ⟨[
          ⟨createLinearRing (vec3dArray2CoordSeq p1 true),
           [createLinearRing (vec3dArray2CoordSeq p2 true)]⟩,
          ⟨createLinearRing (vec3dArray2CoordSeq p3 true),
           [createLinearRing (vec3dArray2CoordSeq p4 true)]⟩]⟩) := by
  simp [importGeometry, importPolygons, polygonStep, h1, h2, h3, h4, createPolygon]

/-- C7, at a concrete input: two counter-clockwise triangles, each followed by a
clockwise triangle. -/
theorem importGeometry_polygon_shell_hole_twice_witness :
    importGeometry areaIsCCW
        [[⟨0, 0, 7⟩, ⟨9, 0, 7⟩, ⟨0, 9, 7⟩], [⟨1, 1, 5⟩, ⟨1, 2, 5⟩, ⟨2, 1, 5⟩],
         [⟨20, 0, 7⟩, ⟨29, 0, 7⟩, ⟨20, 9, 7⟩], [⟨21, 1, 5⟩, ⟨21, 2, 5⟩, ⟨22, 1, 5⟩]]
        .GEOM_POLYGON
      = some (.multiPolygon ⟨[
          ⟨createLinearRing (vec3dArray2CoordSeq [⟨0, 0, 7⟩, ⟨9, 0, 7⟩, ⟨0, 9, 7⟩] true),
           [createLinearRing (vec3dArray2CoordSeq [⟨1, 1, 5⟩, ⟨1, 2, 5⟩, ⟨2, 1, 5⟩] true)]⟩,
          ⟨createLinearRing (vec3dArray2CoordSeq [⟨20, 0, 7⟩, ⟨29, 0, 7⟩, ⟨20, 9, 7⟩] true),
           [createLinearRing
              (vec3dArray2CoordSeq [⟨21, 1, 5⟩, ⟨21, 2, 5⟩, ⟨22, 1, 5⟩] true)]⟩]⟩) :=
  importGeometry_polygon_shell_hole_twice areaIsCCW
    [⟨0, 0, 7⟩, ⟨9, 0, 7⟩, ⟨0, 9, 7⟩] [⟨1, 1, 5⟩, ⟨1, 2, 5⟩, ⟨2, 1, 5⟩]
    [⟨20, 0, 7⟩, ⟨29, 0, 7⟩, ⟨20, 9, 7⟩] [⟨21, 1, 5⟩, ⟨21, 2, 5⟩, ⟨22, 1, 5⟩]
    (by decide) (by decide) (by decide) (by decide)

/-- C8, the code at a MultiPoint of one point `(1, 2)` and an empty prior output:
the appended part has 2 coordinates, the `(0,0,0)` the sized constructor put
there and then the pushed `(1, 2, 0)`, where the claim has the single coordinate
`(1, 2, 0)`. -/
theorem exportGeometry_multiPoint_one_point :
    exportGeometry (.multiPoint ⟨[⟨[⟨1, 2, 3⟩]⟩]⟩) []
        = (true, [[⟨0, 0, 0⟩, ⟨1, 2, 0⟩]]) ∧
    (exportGeometry (.multiPoint ⟨[⟨[⟨1, 2, 3⟩]⟩]⟩) []).2 ≠ [[⟨1, 2, 0⟩]] := by
  decide

/-- C9. For every MultiPolygon and every prior output, `exportGeometry` returns
the prior output followed by the new parts: polygon by polygon, for each polygon
the part of the exterior ring and then one part per interior ring in ring order,
every coordinate being the ring's X and Y with Z = 0.  The number of new parts is
the sum over the polygons of `1 + ` the number of interior rings. -/
theorem exportGeometry_multiPolygon_appends (mpoly : MultiPolygon) (prior : FeatureGeometry) :
    exportGeometry (.multiPolygon mpoly) prior
      = (true, prior ++ mpoly.geometries.flatMap (fun poly =>
          poly.shell.points.map (fun c => Vec3d.mk c.x c.y 0)
            :: poly.holes.map (fun r => r.points.map (fun c => Vec3d.mk c.x c.y 0)))) ∧
    (mpoly.geometries.flatMap (fun poly =>
          poly.shell.points.map (fun c => Vec3d.mk c.x c.y 0)
            :: poly.holes.map (fun r => r.points.map (fun c => Vec3d.mk c.x c.y 0)))).length
      = (mpoly.geometries.map (fun poly => 1 + poly.getNumInteriorRing)).sum := by
  constructor
  · simp only [exportGeometry, exportMultiPolygon_eq]
    rfl
  · induction mpoly.geometries with
    | nil => rfl
    | cons poly rest ih =>
      simp only [List.flatMap_cons, List.length_append, List.map_cons, List.sum_cons, ih]
      simp [Polygon.getNumInteriorRing]
      omega

/-- C10. For every Polygon and every prior output, the output after
`exportGeometry` is the part of the exterior ring followed by one part per
interior ring in ring order, every coordinate being the ring's X and Y with
Z = 0; the prior output has no influence, and exporting the polygon again into
that output gives the same output. -/
theorem exportGeometry_polygon_replaces (poly : Polygon) (prior : FeatureGeometry) :
    exportGeometry (.polygon poly) prior
      = (true, poly.shell.points.map (fun c => Vec3d.mk c.x c.y 0)
          :: poly.holes.map (fun r => r.points.map (fun c => Vec3d.mk c.x c.y 0))) ∧
    (∀ other : FeatureGeometry,
      exportGeometry (.polygon poly) other = exportGeometry (.polygon poly) prior) ∧
    exportGeometry (.polygon poly) (exportGeometry (.polygon poly) prior).2
      = exportGeometry (.polygon poly) prior := by
  refine ⟨?_, ?_, ?_⟩
  · simp only [exportGeometry, exportPolygon_eq]
    rfl
  · intro other
    simp only [exportGeometry, exportPolygon_eq]
  · simp only [exportGeometry, exportPolygon_eq]

/-- C11. `exportGeometry` returns true for every input and every output, and for
an input that is a Point, a LineString (a LinearRing included), a
MultiLineString, or of no handled type, the output after the call is the output
before the call. -/
theorem exportGeometry_true_and_frame (input : Geometry) (output : FeatureGeometry) :
    (exportGeometry input output).1 = true ∧
    (∀ p, exportGeometry (.point p) output = (true, output)) ∧
    (∀ ls, exportGeometry (.lineString ls) output = (true, output)) ∧
    (∀ lr, exportGeometry (.linearRing lr) output = (true, output)) ∧
    (∀ mls, exportGeometry (.multiLineString mls) output = (true, output)) ∧
    (∀ members, exportGeometry (.geometryCollection members) output = (true, output)) := by
  refine ⟨?_, fun _ => rfl, fun _ => rfl, fun _ => rfl, fun _ => rfl, fun _ => rfl⟩
  cases input <;> rfl

/-- C12. `importGeometry` returns the null result exactly when the geometry kind
is none of POINT, LINE, POLYGON; for every input, the empty one included, kind
POINT returns a MultiPoint, kind LINE a MultiLineString and kind POLYGON a
MultiPolygon. -/
theorem importGeometry_null_iff (isCCW : Vec3dArray → Bool) (input : FeatureGeometry)
    (kind : GeometryType) :
    (importGeometry isCCW input kind = none ↔
      (kind ≠ .GEOM_POINT ∧ kind ≠ .GEOM_LINE ∧ kind ≠ .GEOM_POLYGON)) ∧
    (∃ mp, importGeometry isCCW input .GEOM_POINT = some (.multiPoint mp)) ∧
    (∃ mls, importGeometry isCCW input .GEOM_LINE = some (.multiLineString mls)) ∧
    (∃ mpoly, importGeometry isCCW input .GEOM_POLYGON = some (.multiPolygon mpoly)) := by
  refine ⟨?_, ⟨_, rfl⟩, ⟨_, rfl⟩, ⟨_, rfl⟩⟩
  cases kind <;> simp [importGeometry]

/-- C13. For every input, kind POINT returns the MultiPoint and kind LINE the
MultiLineString whose members are built, in input order, from the input parts of
at least 2 coordinates, one member per such part, so the number of members is the
number of those parts; each member holds exactly its part's coordinates, X, Y and
Z, in the same order, no closing coordinate added. -/
theorem importGeometry_point_line_members (isCCW : Vec3dArray → Bool)
    (input : FeatureGeometry) :
    importGeometry isCCW input .GEOM_POINT
      = some (.multiPoint ⟨(input.filter (fun part => decide (2 ≤ part.length))).map
          (fun part => ⟨part.map (fun v => Coordinate.mk v.x v.y v.z)⟩)⟩) ∧
    importGeometry isCCW input .GEOM_LINE
      = some (.multiLineString ⟨(input.filter (fun part => decide (2 ≤ part.length))).map
          (fun part => ⟨part.map (fun v => Coordinate.mk v.x v.y v.z)⟩)⟩) ∧
    (importPoints input).length = input.countP (fun part => decide (2 ≤ part.length)) ∧
    (importLines input).length = input.countP (fun part => decide (2 ≤ part.length)) := by
  refine ⟨?_, ?_, ?_, ?_⟩
  · simp only [importGeometry, importPoints_eq, vec3dArray2CoordSeq_open]
    rfl
  · simp only [importGeometry, importLines_eq, vec3dArray2CoordSeq_open]
    rfl
  · rw [importPoints_eq, List.length_map, List.countP_eq_length_filter]
  · rw [importLines_eq, List.length_map, List.countP_eq_length_filter]

/-- C14. For every part of `n` coordinates and either value of the close flag,
the first `n` coordinates produced by `vec3dArray2CoordSeq` are the input
coordinates in the same order, X, Y and Z kept; with `close = false` the output
has exactly `n` coordinates. -/
theorem vec3dArray2CoordSeq_copies (input : Vec3dArray) (close : Bool) :
    (vec3dArray2CoordSeq input close).take input.length
      = input.map (fun v => Coordinate.mk v.x v.y v.z) ∧
    (vec3dArray2CoordSeq input false).length = input.length := by
  constructor
  · have hcopy : input.map toCoordinate = input.map (fun v => Coordinate.mk v.x v.y v.z) := rfl
    have hlen : (input.map toCoordinate).length = input.length := List.length_map _ _
    unfold vec3dArray2CoordSeq
    simp only []
    split
    · split
      · split
        · rw [← hlen, List.take_left, hcopy]
        · rw [← hlen, List.take_length, hcopy]
      · rw [← hlen, List.take_length, hcopy]
    · rw [← hlen, List.take_length, hcopy]
  · rw [vec3dArray2CoordSeq_open, List.length_map]

/-- C15. For every polygon-kind input that is empty or whose first part is
counter-clockwise, importing it and exporting the resulting MultiPolygon into an
empty output yields one host part per input part, in input order, the `i`-th
being the closed form of input part `i`, as `vec3dArray2CoordSeq` with
`close = true` produces it, with X and Y kept and Z = 0. -/
theorem importGeometry_polygon_export_all (isCCW : Vec3dArray → Bool)
    (input : FeatureGeometry)
    (h : ∀ first, input.head? = some first → isCCW first = true) :
    ∃ mpoly,
      importGeometry isCCW input .GEOM_POLYGON = some (.multiPolygon mpoly) ∧
      exportGeometry (.multiPolygon mpoly) []
        = (true, input.map (fun part =>
            (vec3dArray2CoordSeq part true).map (fun c => Vec3d.mk c.x c.y 0))) := by
  refine ⟨⟨importPolygons isCCW input⟩, rfl, ?_⟩
  simp only [exportGeometry, exportMultiPolygon_eq, List.nil_append, flatMap_polygonParts]
  cases input with
  | nil => rfl
  | cons first rest =>
    have hfirst : isCCW first = true := h first rfl
    have hsplit := importPolygons_rings_split isCCW [] first rest (by simp) hfirst
    simp only [List.nil_append, List.map_nil] at hsplit
    rw [hsplit]
    simp [ringPart, ringOf, createLinearRing, flatXY]

/-- C15, at a concrete input: a counter-clockwise triangle, a clockwise one,
another counter-clockwise one. -/
theorem importGeometry_polygon_export_all_witness :
    ∃ mpoly,
      importGeometry areaIsCCW
          [[⟨0, 0, 7⟩, ⟨9, 0, 7⟩, ⟨0, 9, 7⟩], [⟨1, 1, 5⟩, ⟨1, 2, 5⟩, ⟨2, 1, 5⟩],
           [⟨20, 0, 7⟩, ⟨29, 0, 7⟩, ⟨20, 9, 7⟩]] .GEOM_POLYGON
        = some (.multiPolygon mpoly) ∧
      exportGeometry (.multiPolygon mpoly) []
        = (true, ([[⟨0, 0, 7⟩, ⟨9, 0, 7⟩, ⟨0, 9, 7⟩], [⟨1, 1, 5⟩, ⟨1, 2, 5⟩, ⟨2, 1, 5⟩],
           [⟨20, 0, 7⟩, ⟨29, 0, 7⟩, ⟨20, 9, 7⟩]] : FeatureGeometry).map (fun part =>
            (vec3dArray2CoordSeq part true).map (fun c => Vec3d.mk c.x c.y 0))) :=
  importGeometry_polygon_export_all areaIsCCW
    [[⟨0, 0, 7⟩, ⟨9, 0, 7⟩, ⟨0, 9, 7⟩], [⟨1, 1, 5⟩, ⟨1, 2, 5⟩, ⟨2, 1, 5⟩],
     [⟨20, 0, 7⟩, ⟨29, 0, 7⟩, ⟨20, 9, 7⟩]]
    (by intro first hf; cases hf; decide)

/-- C16. Ring conservation in polygon import.  For every polygon-kind input with
at least one counter-clockwise part, the rings of the returned MultiPolygon,
shells plus holes over all its Polygons, are as many as the input parts.  For
every input without a counter-clockwise part, the returned MultiPolygon has no
Polygon, so every clockwise part is dropped. -/
theorem importGeometry_polygon_ring_count (isCCW : Vec3dArray → Bool)
    (input : FeatureGeometry) :
    ((∃ part ∈ input, isCCW part = true) →
      ∃ mpoly, importGeometry isCCW input .GEOM_POLYGON = some (.multiPolygon mpoly) ∧
        (mpoly.geometries.map (fun poly => 1 + poly.getNumInteriorRing)).sum
          = input.length) ∧
    ((∀ part ∈ input, isCCW part = false) →
      importGeometry isCCW input .GEOM_POLYGON = some (.multiPolygon ⟨[]⟩)) := by
  constructor
  · intro hex
    refine ⟨⟨importPolygons isCCW input⟩, rfl, ?_⟩
    obtain ⟨pre, first, rest, rfl, hpre, hfirst⟩ := exists_first_ccw isCCW input hex
    have hsplit := importPolygons_rings_split isCCW pre first rest hpre hfirst
    have hlen : ∀ polys : List Polygon,
        (polys.map (fun poly => 1 + poly.getNumInteriorRing)).sum
          = (polys.flatMap Polygon.rings).length := by
      intro polys
      induction polys with
      | nil => rfl
      | cons p ps ih =>
        simp only [List.map_cons, List.sum_cons, ih, List.flatMap_cons, List.length_append]
        simp [Polygon.rings, Polygon.getNumInteriorRing]
        omega
    show ((importPolygons isCCW (pre ++ first :: rest)).map
      (fun poly => 1 + poly.getNumInteriorRing)).sum = _
    rw [hlen, hsplit]
    simp
    omega
  · intro hall
    obtain ⟨hp, hs, _⟩ := foldl_polygonStep_cw isCCW input hall ⟨[], none, none⟩
    simp only [importGeometry, importPolygons]
    rw [hs, hp]

/-- C16, at concrete inputs: a clockwise triangle before a counter-clockwise one
gives 2 rings for 2 parts, and two clockwise triangles give no Polygon. -/
theorem importGeometry_polygon_ring_count_witness :
    (∃ mpoly, importGeometry areaIsCCW
        [[⟨1, 1, 5⟩, ⟨1, 2, 5⟩, ⟨2, 1, 5⟩], [⟨0, 0, 7⟩, ⟨9, 0, 7⟩, ⟨0, 9, 7⟩]] .GEOM_POLYGON
        = some (.multiPolygon mpoly) ∧
      (mpoly.geometries.map (fun poly => 1 + poly.getNumInteriorRing)).sum
        = ([[⟨1, 1, 5⟩, ⟨1, 2, 5⟩, ⟨2, 1, 5⟩], [⟨0, 0, 7⟩, ⟨9, 0, 7⟩, ⟨0, 9, 7⟩]]
            : FeatureGeometry).length) ∧
    importGeometry areaIsCCW
        [[⟨1, 1, 5⟩, ⟨1, 2, 5⟩, ⟨2, 1, 5⟩], [⟨3, 3, 5⟩, ⟨3, 4, 5⟩, ⟨4, 3, 5⟩]] .GEOM_POLYGON
      = some (.multiPolygon ⟨[]⟩) :=
  ⟨(importGeometry_polygon_ring_count areaIsCCW
      [[⟨1, 1, 5⟩, ⟨1, 2, 5⟩, ⟨2, 1, 5⟩], [⟨0, 0, 7⟩, ⟨9, 0, 7⟩, ⟨0, 9, 7⟩]]).1
      ⟨[⟨0, 0, 7⟩, ⟨9, 0, 7⟩, ⟨0, 9, 7⟩], by decide, by decide⟩,
   (importGeometry_polygon_ring_count areaIsCCW
      [[⟨1, 1, 5⟩, ⟨1, 2, 5⟩, ⟨2, 1, 5⟩], [⟨3, 3, 5⟩, ⟨3, 4, 5⟩, ⟨4, 3, 5⟩]]).2
      (by decide)⟩

/-- C17. For every polygon-kind input, the MultiPolygon `importGeometry` returns
has as many Polygons as the input has counter-clockwise parts, and the shell of
the `j`-th Polygon is the ring built from the `j`-th counter-clockwise part. -/
theorem importGeometry_polygon_shells (isCCW : Vec3dArray → Bool) (input : FeatureGeometry) :
    ∃ mpoly,
      importGeometry isCCW input .GEOM_POLYGON = some (.multiPolygon mpoly) ∧
      mpoly.getNumGeometries = input.countP isCCW ∧
      mpoly.geometries.map Polygon.shell
        = (input.filter isCCW).map
            (fun part => createLinearRing (vec3dArray2CoordSeq part true)) := by
  refine ⟨⟨importPolygons isCCW input⟩, rfl, ?_, ?_⟩
  · have h := congrArg List.length (importPolygons_shells isCCW input)
    simp only [List.length_map] at h
    rw [MultiPolygon.getNumGeometries, h, List.countP_eq_length_filter]
  · exact importPolygons_shells isCCW input

/-- C18. Exporting a single Polygon agrees with exporting the MultiPolygon of
that one Polygon: for every Polygon and every prior output, `exportGeometry` of
the Polygon returns what `exportGeometry` of the one-member MultiPolygon returns
on an empty output. -/
theorem exportGeometry_polygon_eq_multiPolygon (poly : Polygon) (prior : FeatureGeometry) :
    exportGeometry (.polygon poly) prior = exportGeometry (.multiPolygon ⟨[poly]⟩) [] := by
  simp [exportGeometry, exportPolygon_eq, exportMultiPolygon_eq]

/-- C19, as amended. Ring closing is idempotent on every part whose first
coordinate has numbers, not NaN, for X and Y: `vec3dArray2CoordSeq` with
`close = true` applied to the coordinates it produced with `close = true` (taken
back as host coordinates, X, Y and Z kept) returns the same coordinate sequence;
no second closing coordinate is added. -/
theorem vec3dArray2CoordSeq_close_idempotent (part : Vec3dArray)
    (hnum : ∀ first, part.head? = some first →
      first.x ≠ Double.nan ∧ first.y ≠ Double.nan) :
    vec3dArray2CoordSeq ((vec3dArray2CoordSeq part true).map toVec3d) true
      = vec3dArray2CoordSeq part true := by
  by_cases hn : 2 < part.length
  · obtain ⟨first, hf⟩ : ∃ first, part.head? = some first := by
      cases part with
      | nil => simp at hn
      | cons v _ => exact ⟨v, rfl⟩
    obtain ⟨last, hl⟩ : ∃ last, part.getLast? = some last := by
      cases hlast : part.getLast? with
      | none => rw [List.getLast?_eq_none_iff] at hlast; simp [hlast] at hn
      | some v => exact ⟨v, rfl⟩
    obtain ⟨hx, hy⟩ := hnum first hf
    have hseq := vec3dArray2CoordSeq_long part first last hn hf hl
    by_cases hne : (toCoordinate first).ne (toCoordinate last) = true
    · rw [if_pos hne] at hseq
      have hback : (vec3dArray2CoordSeq part true).map toVec3d = part ++ [first] := by
        rw [hseq, List.map_append, map_toVec3d_toCoordinate]
        rfl
      rw [hback, hseq]
      have hlong := vec3dArray2CoordSeq_long (part ++ [first]) first first
        (by simp; omega) (by rw [List.head?_append, hf]; rfl) (by simp)
      rw [hlong, Coordinate.ne_self (toCoordinate first) hx hy]
      simp
    · rw [if_neg hne] at hseq
      have hback : (vec3dArray2CoordSeq part true).map toVec3d = part := by
        rw [hseq, map_toVec3d_toCoordinate]
      rw [hback]
  · have hshort := vec3dArray2CoordSeq_short part true (by omega)
    have hback : (vec3dArray2CoordSeq part true).map toVec3d = part := by
      rw [hshort, map_toVec3d_toCoordinate]
    rw [hback]

/-- C19 as amended, at a concrete part: an open triangle is closed once, and
closing the result again changes nothing. -/
theorem vec3dArray2CoordSeq_close_idempotent_witness :
    vec3dArray2CoordSeq
        ((vec3dArray2CoordSeq [⟨0, 0, 7⟩, ⟨4, 0, 7⟩, ⟨0, 4, 7⟩] true).map toVec3d) true
      = vec3dArray2CoordSeq [⟨0, 0, 7⟩, ⟨4, 0, 7⟩, ⟨0, 4, 7⟩] true :=
  vec3dArray2CoordSeq_close_idempotent [⟨0, 0, 7⟩, ⟨4, 0, 7⟩, ⟨0, 4, 7⟩]
    (by intro first hf; cases hf; decide)

/-- C19 as stated fails: on the triangle `(NaN,0,7) (4,0,7) (0,4,7)` the first
pass appends a copy of the first coordinate, 4 coordinates, and the pass over
these appends one more, 5 coordinates: a NaN differs from itself at line 55. -/
theorem vec3dArray2CoordSeq_close_nan_grows :
    vec3dArray2CoordSeq [⟨Double.nan, 0, 7⟩, ⟨4, 0, 7⟩, ⟨0, 4, 7⟩] true
      = [⟨Double.nan, 0, 7⟩, ⟨4, 0, 7⟩, ⟨0, 4, 7⟩, ⟨Double.nan, 0, 7⟩] ∧
    vec3dArray2CoordSeq
        ((vec3dArray2CoordSeq [⟨Double.nan, 0, 7⟩, ⟨4, 0, 7⟩, ⟨0, 4, 7⟩] true).map toVec3d)
        true
      = [⟨Double.nan, 0, 7⟩, ⟨4, 0, 7⟩, ⟨0, 4, 7⟩, ⟨Double.nan, 0, 7⟩,
          ⟨Double.nan, 0, 7⟩] ∧
    vec3dArray2CoordSeq
        ((vec3dArray2CoordSeq [⟨Double.nan, 0, 7⟩, ⟨4, 0, 7⟩, ⟨0, 4, 7⟩] true).map toVec3d)
        true
      ≠ vec3dArray2CoordSeq [⟨Double.nan, 0, 7⟩, ⟨4, 0, 7⟩, ⟨0, 4, 7⟩] true := by
  decide

end GEOSUtils
